import Mathlib

/-!
# Verification of the ExaMPM solver driver (`ExaMPM_Solver.hpp`)

A shallow embedding of the control-flow of `Solver::solve`,
`Solver::outputParticles`, `Solver::timer_stats` and `createSolver` from
`src/ExaMPM_Solver.hpp`, together with proofs of the specified properties
of the time-stepping loop, the output schedule, the background-fusion
fork/reap protocol, the timer-statistics reduction and the backend
dispatch.

Doubles are modelled as rationals (reals where a square root occurs);
the MPI rank structure is modelled explicitly as lists of participants.
-/

namespace ExaMPM

/-! ## The solve loop (`Solver::solve`, lines 81-110)

State of one participant's solve loop.  `outputs` records the step
indices at which `outputParticles` was called, in call order; the
pre-loop call at line 84 is recorded as step `0`.  `modDivs` records
the divisor of every `%` operation executed by the loop body (lines 88
and 108), in execution order. -/
structure SolveState where
  dt : ℚ
  time : ℚ
  step : ℕ
  outputs : List ℕ
  modDivs : List ℤ
  deriving Repr, DecidableEq

/-- State on entry to the `while` loop: the constructor sets
`_dt = delta_t`, `_time = 0`, `_step = 0` (lines 60-62), and line 84
emits output for the initial state unconditionally. -/
def solveInit (delta_t : ℚ) : SolveState :=
  { dt := delta_t, time := 0, step := 0, outputs := [0], modDivs := [] }

/-- One iteration of the `while ( _time < t_final )` loop body
(lines 86-110), parameterised by the timestep controller `ctrl`
(a function of the current step index and the previous `dt`,
modelling `timeStepControl`), the participant's rank and the
`write_freq` argument.  When `_time >= t_final` the loop body does not
run and the state is unchanged.

Line 88 evaluates `_step % write_freq` only when `0 == _rank`
(the `&&` short-circuits); line 108 evaluates `_step % write_freq`
unconditionally, after `_time += _dt; _step++`. -/
def solveIter (ctrl : ℕ → ℚ → ℚ) (rank : ℕ) (write_freq : ℤ) (t_final : ℚ)
    (s : SolveState) : SolveState :=
  if s.time < t_final then
    let md₁ := s.modDivs ++ (if rank = 0 then [write_freq] else [])
    let dt := ctrl s.step s.dt
    let time := s.time + dt
    let step := s.step + 1
    let md₂ := md₁ ++ [write_freq]
    let outputs :=
      if (step : ℤ) % write_freq = 0 then s.outputs ++ [step] else s.outputs
    { dt := dt, time := time, step := step, outputs := outputs, modDivs := md₂ }
  else s

/-- The trace of loop states: `solveTrace ctrl rank w t_final delta_t n`
is the participant's state after `n` executions of the loop head.  Once
`_time >= t_final` the state is fixed, so the trace's limit is the state
at loop exit. -/
def solveTrace (ctrl : ℕ → ℚ → ℚ) (rank : ℕ) (write_freq : ℤ)
    (t_final : ℚ) (delta_t : ℚ) : ℕ → SolveState
  | 0 => solveInit delta_t
  | n + 1 => solveIter ctrl rank write_freq t_final
      (solveTrace ctrl rank write_freq t_final delta_t n)

/-- A timestep controller that always returns the configured maximum,
used as a concrete instance of the `timeStepControl` boundary. -/
def constCtrl (c : ℚ) : ℕ → ℚ → ℚ := fun _ _ => c

/-- C1: in each loop iteration of `solve` the simulation time increases by
exactly the `dt` used in that iteration (the controller's output, stored
in the new state's `dt` field) and the step counter increments by exactly
1; outside the loop the state is unchanged (no iteration skipped or
repeated); on loop exit `time >= t_final` (undershoot forbidden), and if
at least one iteration ran before the first exit, `time` overshoots
`t_final` by strictly less than the last iteration's `dt`. -/
theorem solve_clock_advance (ctrl : ℕ → ℚ → ℚ) (rank : ℕ) (w : ℤ)
    (t_final delta_t : ℚ) :
    (∀ n, (solveTrace ctrl rank w t_final delta_t n).time < t_final →
      (solveTrace ctrl rank w t_final delta_t (n + 1)).time
        = (solveTrace ctrl rank w t_final delta_t n).time
          + ctrl (solveTrace ctrl rank w t_final delta_t n).step
              (solveTrace ctrl rank w t_final delta_t n).dt
      ∧ (solveTrace ctrl rank w t_final delta_t (n + 1)).dt
        = ctrl (solveTrace ctrl rank w t_final delta_t n).step
            (solveTrace ctrl rank w t_final delta_t n).dt
      ∧ (solveTrace ctrl rank w t_final delta_t (n + 1)).step
        = (solveTrace ctrl rank w t_final delta_t n).step + 1)
    ∧ (∀ n, ¬ (solveTrace ctrl rank w t_final delta_t n).time < t_final →
        solveTrace ctrl rank w t_final delta_t (n + 1)
          = solveTrace ctrl rank w t_final delta_t n
        ∧ t_final ≤ (solveTrace ctrl rank w t_final delta_t n).time)
    ∧ (∀ n, 0 < n →
        (∀ m, m < n → (solveTrace ctrl rank w t_final delta_t m).time < t_final) →
        t_final ≤ (solveTrace ctrl rank w t_final delta_t n).time →
        (solveTrace ctrl rank w t_final delta_t n).time
          < t_final + (solveTrace ctrl rank w t_final delta_t n).dt) := by
  refine ⟨?_, ?_, ?_⟩
  · intro n h
    simp [solveTrace, solveIter, if_pos h]
  · intro n h
    exact ⟨by simp [solveTrace, solveIter, if_neg h], not_lt.mp h⟩
  · intro n hn hall _
    obtain ⟨k, rfl⟩ : ∃ k, n = k + 1 := ⟨n - 1, by omega⟩
    have hk := hall k (by omega)
    have ht : (solveTrace ctrl rank w t_final delta_t (k + 1)).time
        = (solveTrace ctrl rank w t_final delta_t k).time
          + ctrl (solveTrace ctrl rank w t_final delta_t k).step
              (solveTrace ctrl rank w t_final delta_t k).dt := by
      simp [solveTrace, solveIter, if_pos hk]
    have hd : (solveTrace ctrl rank w t_final delta_t (k + 1)).dt
        = ctrl (solveTrace ctrl rank w t_final delta_t k).step
            (solveTrace ctrl rank w t_final delta_t k).dt := by
      simp [solveTrace, solveIter, if_pos hk]
    rw [ht, hd]
    exact add_lt_add_right hk _

/-- Witness for C1 at the spec scenario `t_final = 1`, `dt = 3/10`,
`write_freq = 2`: the loop exits after 4 iterations at `time = 6/5`,
which overshoots `t_final` by less than the last `dt`. -/
theorem solve_clock_advance_witness :
    (solveTrace (constCtrl (3 / 10)) 0 2 1 (3 / 10) 4).time
      < 1 + (solveTrace (constCtrl (3 / 10)) 0 2 1 (3 / 10) 4).dt := by
  have h := solve_clock_advance (constCtrl (3 / 10)) 0 2 1 (3 / 10)
  refine h.2.2 4 (by norm_num) ?_ ?_
  · intro m hm
    interval_cases m <;> norm_num [solveTrace, solveIter, solveInit, constCtrl]
  · norm_num [solveTrace, solveIter, solveInit, constCtrl]

/-- C2: if every output of the timestep controller is positive and at
most the configured maximum `max_dt`, then the `dt` installed by line 97
and passed to `TimeIntegrator::step` at every executed iteration
satisfies `0 < dt <= max_dt`. -/
theorem solve_dt_bounds (ctrl : ℕ → ℚ → ℚ) (rank : ℕ) (w : ℤ)
    (t_final delta_t max_dt : ℚ)
    (hctrl : ∀ n d, 0 < ctrl n d ∧ ctrl n d ≤ max_dt) :
    ∀ n, (solveTrace ctrl rank w t_final delta_t n).time < t_final →
      0 < (solveTrace ctrl rank w t_final delta_t (n + 1)).dt
      ∧ (solveTrace ctrl rank w t_final delta_t (n + 1)).dt ≤ max_dt := by
  intro n h
  have hd : (solveTrace ctrl rank w t_final delta_t (n + 1)).dt
      = ctrl (solveTrace ctrl rank w t_final delta_t n).step
          (solveTrace ctrl rank w t_final delta_t n).dt := by
    simp [solveTrace, solveIter, if_pos h]
  rw [hd]
  exact hctrl _ _

/-- Witness for C2 with the constant controller `3/10` and
`max_dt = 3/10` at the first iteration. -/
theorem solve_dt_bounds_witness :
    0 < (solveTrace (constCtrl (3 / 10)) 0 2 1 (3 / 10) 1).dt
    ∧ (solveTrace (constCtrl (3 / 10)) 0 2 1 (3 / 10) 1).dt ≤ 3 / 10 := by
  exact solve_dt_bounds (constCtrl (3 / 10)) 0 2 1 (3 / 10) (3 / 10)
    (fun n d => by constructor <;> norm_num [constCtrl]) 0
    (by norm_num [solveTrace, solveInit])

/-- C3: with `write_freq > 0`, the output calls of a run are exactly:
one call for the initial state (step 0, line 84, before the loop), and
one call at each subsequent step `k >= 1` reached by the loop with
`k mod write_freq == 0` (line 108), in increasing step order, and at no
other step. -/
theorem solve_output_schedule (ctrl : ℕ → ℚ → ℚ) (rank : ℕ) (w : ℤ)
    (t_final delta_t : ℚ) (_hw : 0 < w) :
    ∀ n, (solveTrace ctrl rank w t_final delta_t n).outputs
      = 0 :: (List.range ((solveTrace ctrl rank w t_final delta_t n).step + 1)).filter
          (fun (k : ℕ) => decide (k ≠ 0 ∧ (k : ℤ) % w = 0)) := by
  intro n
  induction n with
  | zero => simp [solveTrace, solveInit]
  | succ n ih =>
    by_cases h : (solveTrace ctrl rank w t_final delta_t n).time < t_final
    · have hstep : (solveTrace ctrl rank w t_final delta_t (n + 1)).step
          = (solveTrace ctrl rank w t_final delta_t n).step + 1 := by
        simp [solveTrace, solveIter, if_pos h]
      have houts : (solveTrace ctrl rank w t_final delta_t (n + 1)).outputs
          = if ((((solveTrace ctrl rank w t_final delta_t n).step + 1 : ℕ) : ℤ) % w = 0)
            then (solveTrace ctrl rank w t_final delta_t n).outputs
              ++ [(solveTrace ctrl rank w t_final delta_t n).step + 1]
            else (solveTrace ctrl rank w t_final delta_t n).outputs := by
        simp [solveTrace, solveIter, if_pos h]
      rw [houts, hstep]
      conv_rhs => rw [List.range_succ, List.filter_append, List.filter_singleton]
      by_cases hmod :
          ((((solveTrace ctrl rank w t_final delta_t n).step + 1 : ℕ) : ℤ) % w = 0)
      · have hp : decide ((solveTrace ctrl rank w t_final delta_t n).step + 1 ≠ 0
            ∧ (((solveTrace ctrl rank w t_final delta_t n).step + 1 : ℕ) : ℤ) % w = 0)
            = true := decide_eq_true ⟨Nat.succ_ne_zero _, hmod⟩
        rw [if_pos hmod, ih, hp, cond_true, List.cons_append]
      · have hp : decide ((solveTrace ctrl rank w t_final delta_t n).step + 1 ≠ 0
            ∧ (((solveTrace ctrl rank w t_final delta_t n).step + 1 : ℕ) : ℤ) % w = 0)
            = false := decide_eq_false fun hc => hmod hc.2
        rw [if_neg hmod, ih, hp, cond_false, List.append_nil]
    · have : solveTrace ctrl rank w t_final delta_t (n + 1)
          = solveTrace ctrl rank w t_final delta_t n := by
        simp [solveTrace, solveIter, if_neg h]
      rw [this, ih]

/-- Witness for C3 at the spec scenario `t_final = 1`, `max_dt = 3/10`,
`write_freq = 2`: after the loop exits output happened exactly at steps
0, 2 and 4. -/
theorem solve_output_schedule_witness :
    (solveTrace (constCtrl (3 / 10)) 0 2 1 (3 / 10) 4).outputs = [0, 2, 4] := by
  have h := solve_output_schedule (constCtrl (3 / 10)) 0 2 1 (3 / 10) (by decide) 4
  have hs : (solveTrace (constCtrl (3 / 10)) 0 2 1 (3 / 10) 4).step = 4 := by
    norm_num [solveTrace, solveIter, solveInit, constCtrl]
  rw [h, hs]
  decide

/-- C7: `solve` performs no validation of `write_freq`.  With
`write_freq = 0` and `t_final = 1` the first loop iteration executes
`_step % write_freq` with divisor 0 twice (line 88, reached because
`_rank == 0`, and line 108): the trace records the divisor-0 modulo
operations, contradicting the requirement that a non-positive
`write_freq` be rejected before the loop so that no such modulo ever
executes.  (In C++ an integer `%` with divisor 0 is undefined
behavior.) -/
theorem solve_no_write_freq_validation :
    (solveTrace (constCtrl (3 / 10)) 0 0 1 (3 / 10) 1).modDivs = [0, 0] := by
  norm_num [solveTrace, solveIter, solveInit, constCtrl]

/-! ## Output and background fusion
(`Solver::outputParticles`, lines 140-306, and the shutdown reap,
lines 112-137) -/

/-- The HDF5 configuration flags set from the environment at the start
of `outputParticles` (lines 144-164); the stripe-alignment tuning fields
(lines 150-156) do not affect control flow and are omitted. -/
structure HDF5Config where
  subfiling : Bool
  h5fuse_info : Bool
  h5fuse_local : Bool
  deriving Repr, DecidableEq

/-- The environment variables consulted by `outputParticles`. -/
structure OutputEnv where
  H5FD_SUBFILING : Option String
  H5FUSE : Option String
  LOC : Option String

/-- Lines 144-164: `subfiling` is set when `H5FD_SUBFILING` is present,
`h5fuse_info` when `H5FUSE` is present, and `h5fuse_local` additionally
requires `LOC` (only checked inside the `H5FUSE` branch). -/
def mkHDF5Config (env : OutputEnv) : HDF5Config :=
  { subfiling := env.H5FD_SUBFILING.isSome
    h5fuse_info := env.H5FUSE.isSome
    h5fuse_local := env.H5FUSE.isSome && env.LOC.isSome }

/-- One MPI participant: its rank in `MPI_COMM_WORLD` and the id of the
shared-memory node group in which
`MPI_Comm_split_type(MPI_COMM_WORLD, MPI_COMM_TYPE_SHARED, 0, ...)`
(line 241) places it. -/
structure Participant where
  grank : ℕ
  node : ℕ
  deriving Repr, DecidableEq

/-- The rank `MPI_Comm_rank(shmcomm, &shmrank)` (line 244) assigns:
with split key 0, ranks in the shared-memory communicator are ordered by
the original `MPI_COMM_WORLD` rank, so `p`'s shared-memory rank is the
number of participants of the same node group with a smaller global
rank. -/
def shmrankOf (job : List Participant) (p : Participant) : ℕ :=
  (job.filter (fun q => q.node == p.node && decide (q.grank < p.grank))).length

/-- Per-process state touched by the fusion pipeline: the `nfork`
counter (line 35, namespace scope, hence static storage duration and
zero-initialization), the `shmrank` member (line 318, never initialized
by the constructor: `none` models "not yet assigned"), and the list of
step indices at which this process launched a background `h5fuse` child
(the `fork()` calls at lines 202 and 253). -/
structure FusionState where
  nfork : ℕ
  shmrank : Option ℕ
  launched : List ℕ
  deriving Repr, DecidableEq

/-- Process start: `nfork` is zero-initialized, `shmrank` is an
uninitialized member, no child has been launched. -/
def initFusionState : FusionState :=
  { nfork := 0, shmrank := none, launched := [] }

/-- The effect of one `outputParticles` call (fusion part, lines
180-291) on the caller's fusion state.  `manifest_nonempty` is whether
`h5_config.subfilenames` came back non-empty from the write (line 197).
With `H5FUSE` set (line 181) and subfiling active (line 183): in the
global branch (`!h5fuse_local`, lines 195-237) a participant with a
non-empty manifest forks a fuser; in the local branch (lines 238-289)
the shared-memory communicator is split, `shmrank` is assigned
(line 244), and the node leader (`shmrank == 0`, line 248) forks.
`nfork++` immediately follows each `fork()` (lines 203, 254); the child
replaces itself via `execvp`, so the increment is observed once per
launch in the parent. -/
def outputParticles (job : List Participant) (cfg : HDF5Config)
    (manifest_nonempty : Bool) (p : Participant) (step : ℕ)
    (s : FusionState) : FusionState :=
  if cfg.h5fuse_info then
    if cfg.subfiling then
      if !cfg.h5fuse_local then
        if manifest_nonempty then
          { s with nfork := s.nfork + 1, launched := s.launched ++ [step] }
        else s
      else
        let r := shmrankOf job p
        if r = 0 then
          { s with shmrank := some r, nfork := s.nfork + 1,
                   launched := s.launched ++ [step] }
        else { s with shmrank := some r }
    else s
  else s

/-- A run of output calls on one participant: `calls` lists, in order,
the `(manifest_nonempty, step)` data of each `outputParticles`
invocation. -/
def runOutputs (job : List Participant) (cfg : HDF5Config)
    (p : Participant) (calls : List (Bool × ℕ)) (s : FusionState) :
    FusionState :=
  calls.foldl (fun t c => outputParticles job cfg c.1 p c.2 t) s

/-- Result of one `waitpid` status inspection (lines 118-135). -/
inductive WaitStatus where
  | exited (code : ℤ)
  | signaled
  deriving Repr, DecidableEq

/-- Whether a status triggers `MPI_Abort(MPI_COMM_WORLD, -1)`:
`WIFEXITED` with `WEXITSTATUS != 0` (lines 119-128) or abnormal
termination (lines 130-135). -/
def badStatus : WaitStatus → Bool
  | .exited code => code != 0
  | .signaled => true

/-- The shutdown loop `for (i = 0; i < nfork; i++)` body (lines
116-136) over the statuses delivered by successive `waitpid` calls:
`.error k` when `MPI_Abort(MPI_COMM_WORLD, -1)` — an abort of the
entire distributed job — is reached after checking `k` statuses,
`.ok k` when all `k` statuses checked were clean exits with code 0. -/
def reapStatuses : List WaitStatus → Except ℕ ℕ
  | [] => .ok 0
  | st :: rest =>
    if badStatus st then .error 1
    else
      match reapStatuses rest with
      | .ok k => .ok (k + 1)
      | .error k => .error (k + 1)

/-- The guard at line 113: the participant runs the shutdown reap
exactly when its `shmrank` member reads 0.  A `none` value models an
indeterminate (never-assigned) read. -/
def reapsAtShutdown (s : FusionState) : Bool :=
  s.shmrank == some 0

/-- Lines 112-137: the tail of `solve` after the loop.  `statuses` is
the stream of `waitpid` results; the loop checks the first `nfork` of
them.  `none` means the guard at line 113 skipped the reap. -/
def solveShutdown (s : FusionState) (statuses : List WaitStatus) :
    Option (Except ℕ ℕ) :=
  if reapsAtShutdown s then some (reapStatuses (statuses.take s.nfork))
  else none

lemma reapStatuses_ok_of_clean (statuses : List WaitStatus)
    (h : ∀ st ∈ statuses, st = .exited 0) :
    reapStatuses statuses = .ok statuses.length := by
  induction statuses with
  | nil => rfl
  | cons st rest ih =>
    have hst : st = .exited 0 := h st (List.mem_cons_self _ _)
    have hrest := ih fun t ht => h t (List.mem_cons_of_mem _ ht)
    simp [reapStatuses, hst, badStatus, hrest]

lemma reapStatuses_error_of_bad (statuses : List WaitStatus)
    (h : ∃ st ∈ statuses, badStatus st = true) :
    ∃ k, reapStatuses statuses = .error k := by
  induction statuses with
  | nil => simp at h
  | cons st rest ih =>
    by_cases hb : badStatus st = true
    · exact ⟨1, by simp [reapStatuses, hb]⟩
    · obtain ⟨t, ht, hbad⟩ := h
      rcases List.mem_cons.mp ht with rfl | ht'
      · exact absurd hbad hb
      · obtain ⟨k, hk⟩ := ih ⟨t, ht', hbad⟩
        exact ⟨k + 1, by simp [reapStatuses, hb, hk]⟩

lemma bad_of_reapStatuses_error (statuses : List WaitStatus) (k : ℕ)
    (hk : reapStatuses statuses = .error k) :
    ∃ st ∈ statuses, badStatus st = true := by
  induction statuses generalizing k with
  | nil => simp [reapStatuses] at hk
  | cons st rest ih =>
    by_cases hb : badStatus st = true
    · exact ⟨st, List.mem_cons_self _ _, hb⟩
    · cases hr : reapStatuses rest with
      | ok m => rw [reapStatuses, if_neg (by simp [hb]), hr] at hk; simp at hk
      | error m =>
        obtain ⟨t, ht, hbad⟩ := ih m hr
        exact ⟨t, List.mem_cons_of_mem _ ht, hbad⟩

/-- C5: during the shutdown reap, `MPI_Abort(MPI_COMM_WORLD, -1)` — an
abort of the entire distributed job, not a local failure — is reached
exactly when some reaped background fusion process exited with a
non-zero code or was terminated abnormally; when every reaped status is
a clean exit with code 0 the loop checks all of them and `solve`
returns normally. -/
theorem reap_abort_exactly_on_failure (statuses : List WaitStatus) :
    ((∀ st ∈ statuses, st = .exited 0) →
      reapStatuses statuses = .ok statuses.length)
    ∧ ((∃ st ∈ statuses, badStatus st = true) →
      ∃ k, reapStatuses statuses = .error k)
    ∧ (∀ k, reapStatuses statuses = .error k →
      ∃ st ∈ statuses, badStatus st = true) :=
  ⟨reapStatuses_ok_of_clean statuses, reapStatuses_error_of_bad statuses,
    fun k => bad_of_reapStatuses_error statuses k⟩

/-- Witness for C5: two background fusers that both exited cleanly are
reaped without an abort; `solve` returns normally. -/
theorem reap_abort_exactly_on_failure_witness :
    reapStatuses [WaitStatus.exited 0, WaitStatus.exited 0] = .ok 2 := by
  have h := (reap_abort_exactly_on_failure
    [WaitStatus.exited 0, WaitStatus.exited 0]).1 (by decide)
  simpa using h

lemma outputParticles_nfork_launched (job : List Participant)
    (cfg : HDF5Config) (m : Bool) (p : Participant) (k : ℕ)
    (s : FusionState) :
    ((outputParticles job cfg m p k s).nfork = s.nfork + 1
      ∧ (outputParticles job cfg m p k s).launched = s.launched ++ [k])
    ∨ ((outputParticles job cfg m p k s).nfork = s.nfork
      ∧ (outputParticles job cfg m p k s).launched = s.launched) := by
  simp only [outputParticles]
  split_ifs <;> simp

lemma runOutputs_nfork_eq_launched (job : List Participant)
    (cfg : HDF5Config) (p : Participant) (calls : List (Bool × ℕ)) :
    ∀ s : FusionState, s.nfork = s.launched.length →
      (runOutputs job cfg p calls s).nfork
        = (runOutputs job cfg p calls s).launched.length := by
  induction calls with
  | nil => intro s hs; simpa [runOutputs] using hs
  | cons c rest ih =>
    intro s hs
    have hstep : runOutputs job cfg p (c :: rest) s
        = runOutputs job cfg p rest (outputParticles job cfg c.1 p c.2 s) := by
      simp [runOutputs]
    rw [hstep]
    rcases outputParticles_nfork_launched job cfg c.1 p c.2 s with h | h
    · exact ih _ (by rw [h.1, h.2, List.length_append, hs]; rfl)
    · exact ih _ (by rw [h.1, h.2, hs])

/-- C4 (amended): the `nfork` counter starts at 0 (static storage,
zero-initialized); every `outputParticles` call either launches exactly
one background fusion child and increments `nfork` by exactly 1, or
launches nothing and leaves it unchanged, so after any run of output
steps `nfork` equals the number of launches; the shutdown reap is
performed by exactly those participants whose `shmrank` member reads 0
— not only global rank 0 — and a reaping participant that observes
only clean exit statuses checks exactly `nfork` exit statuses. -/
theorem nfork_lifecycle (job : List Participant) (cfg : HDF5Config)
    (p : Participant) (calls : List (Bool × ℕ))
    (statuses : List WaitStatus) :
    initFusionState.nfork = 0
    ∧ (∀ (m : Bool) (k : ℕ) (s : FusionState),
        ((outputParticles job cfg m p k s).nfork = s.nfork + 1
          ∧ (outputParticles job cfg m p k s).launched = s.launched ++ [k])
        ∨ ((outputParticles job cfg m p k s).nfork = s.nfork
          ∧ (outputParticles job cfg m p k s).launched = s.launched))
    ∧ (runOutputs job cfg p calls initFusionState).nfork
        = (runOutputs job cfg p calls initFusionState).launched.length
    ∧ (∀ s : FusionState, solveShutdown s statuses = none ↔ s.shmrank ≠ some 0)
    ∧ (∀ s : FusionState, s.shmrank = some 0 → s.nfork ≤ statuses.length →
        (∀ st ∈ statuses, st = .exited 0) →
        solveShutdown s statuses = some (.ok s.nfork)) := by
  refine ⟨rfl, fun m k s => outputParticles_nfork_launched job cfg m p k s,
    runOutputs_nfork_eq_launched job cfg p calls initFusionState rfl, ?_, ?_⟩
  · intro s
    by_cases h : s.shmrank = some 0
    · simp [solveShutdown, reapsAtShutdown, h]
    · simp [solveShutdown, reapsAtShutdown, h]
  · intro s hshm hn hclean
    have htake : ∀ st ∈ statuses.take s.nfork, st = WaitStatus.exited 0 :=
      fun st hst => hclean st (List.mem_of_mem_take hst)
    have hlen : (statuses.take s.nfork).length = s.nfork := by
      rw [List.length_take]
      exact Nat.min_eq_left hn
    rw [solveShutdown, if_pos (by simp [reapsAtShutdown, hshm]),
      reapStatuses_ok_of_clean _ htake, hlen]

/-- An 8-participant job split into two shared-memory node groups of
four: global ranks 0-3 on node 0 and 4-7 on node 1. -/
def job8 : List Participant :=
  [⟨0, 0⟩, ⟨1, 0⟩, ⟨2, 0⟩, ⟨3, 0⟩, ⟨4, 1⟩, ⟨5, 1⟩, ⟨6, 1⟩, ⟨7, 1⟩]

/-- Local-fuse configuration: `H5FD_SUBFILING`, `H5FUSE` and `LOC` all
set in the environment. -/
def cfgLocalFuse : HDF5Config := ⟨true, true, true⟩

/-- Global-fuse configuration: `H5FD_SUBFILING` and `H5FUSE` set, `LOC`
unset. -/
def cfgGlobalFuse : HDF5Config := ⟨true, true, false⟩

/-- C4 counterexample: after one local-fuse output step in `job8`, the
participant with global rank 4 — the leader of the second node group —
passes the shutdown-reap guard at line 113 (`shmrank == 0`) even though
its global rank is not 0, so the drain is not performed only by global
rank 0. -/
theorem reap_not_only_global_rank0 :
    reapsAtShutdown (outputParticles job8 cfgLocalFuse true ⟨4, 1⟩ 1
      initFusionState) = true
    ∧ (⟨4, 1⟩ : Participant).grank ≠ 0 := by decide

/-- Witness for C4 (amended): the rank-4 node leader from the
counterexample launched one fuser (`nfork = 1`), and its shutdown reap
with one clean exit status checks exactly one status and returns
normally. -/
theorem nfork_lifecycle_witness :
    solveShutdown (outputParticles job8 cfgLocalFuse true ⟨4, 1⟩ 1
      initFusionState) [WaitStatus.exited 0]
    = some (.ok (outputParticles job8 cfgLocalFuse true ⟨4, 1⟩ 1
        initFusionState).nfork) := by
  exact (nfork_lifecycle job8 cfgLocalFuse ⟨4, 1⟩ [] [WaitStatus.exited 0]).2.2.2.2
    _ (by decide) (by decide) (by decide)

lemma outputParticles_shmrank_of_not_local (job : List Participant)
    (cfg : HDF5Config) (m : Bool) (p : Participant) (k : ℕ)
    (s : FusionState)
    (hcfg : ¬(cfg.h5fuse_info = true ∧ cfg.subfiling = true
      ∧ cfg.h5fuse_local = true)) :
    (outputParticles job cfg m p k s).shmrank = s.shmrank := by
  by_cases h1 : cfg.h5fuse_info = true
  · by_cases h2 : cfg.subfiling = true
    · have h3 : cfg.h5fuse_local = false := by
        cases hl : cfg.h5fuse_local
        · rfl
        · exact absurd ⟨h1, h2, hl⟩ hcfg
      cases m <;> simp [outputParticles, h1, h2, h3]
    · simp [outputParticles, h1, h2]
  · simp [outputParticles, h1]

/-- C10: in any execution in which the local-fuse output branch is
never taken (fusion disabled, subfiling disabled, or global-fuse
topology), the `shmrank` member — uninitialized at construction — is
never assigned by any number of `outputParticles` calls, so the
shutdown-reap guard at line 113 reads an unset (indeterminate) value
rather than the participant's rank. -/
theorem shmrank_unset_without_local_branch (job : List Participant)
    (cfg : HDF5Config) (p : Participant) (calls : List (Bool × ℕ))
    (hcfg : ¬(cfg.h5fuse_info = true ∧ cfg.subfiling = true
      ∧ cfg.h5fuse_local = true)) :
    initFusionState.shmrank = none
    ∧ (runOutputs job cfg p calls initFusionState).shmrank = none := by
  refine ⟨rfl, ?_⟩
  suffices h : ∀ s : FusionState,
      (runOutputs job cfg p calls s).shmrank = s.shmrank from h initFusionState
  induction calls with
  | nil => intro s; rfl
  | cons c rest ih =>
    intro s
    have hstep : runOutputs job cfg p (c :: rest) s
        = runOutputs job cfg p rest (outputParticles job cfg c.1 p c.2 s) := by
      simp [runOutputs]
    rw [hstep, ih, outputParticles_shmrank_of_not_local job cfg c.1 p c.2 s hcfg]

/-- Witness for C10: two global-fuse output steps on the rank-4
participant of `job8` leave `shmrank` unassigned. -/
theorem shmrank_unset_without_local_branch_witness :
    (runOutputs job8 cfgGlobalFuse ⟨4, 1⟩ [(true, 1), (true, 2)]
      initFusionState).shmrank = none := by
  exact (shmrank_unset_without_local_branch job8 cfgGlobalFuse ⟨4, 1⟩
    [(true, 1), (true, 2)] (by decide)).2

/-- Whether a call to `outputParticles` forks a background fusion
child, observed as the `nfork` counter moving 0 → 1 from a fresh
state. -/
def launchesFusion (job : List Participant) (cfg : HDF5Config)
    (manifest_nonempty : Bool) (p : Participant) : Prop :=
  (outputParticles job cfg manifest_nonempty p 0 initFusionState).nfork = 1

lemma launchesFusion_local_iff (job : List Participant) (cfg : HDF5Config)
    (m : Bool) (p : Participant) (h1 : cfg.h5fuse_info = true)
    (h2 : cfg.subfiling = true) (h3 : cfg.h5fuse_local = true) :
    (launchesFusion job cfg m p ↔ shmrankOf job p = 0) := by
  by_cases h : shmrankOf job p = 0
  · simp [launchesFusion, outputParticles, initFusionState, h1, h2, h3, h]
  · simp [launchesFusion, outputParticles, initFusionState, h1, h2, h3, h]

lemma launchesFusion_global_iff (job : List Participant) (cfg : HDF5Config)
    (m : Bool) (p : Participant) (h1 : cfg.h5fuse_info = true)
    (h2 : cfg.subfiling = true) (h3 : cfg.h5fuse_local = false) :
    (launchesFusion job cfg m p ↔ m = true) := by
  cases m <;>
    simp [launchesFusion, outputParticles, initFusionState, h1, h2, h3]

lemma shmrankOf_eq_zero_iff (job : List Participant) (p : Participant) :
    shmrankOf job p = 0 ↔ ∀ q ∈ job, q.node = p.node → ¬ q.grank < p.grank := by
  rw [shmrankOf, List.length_eq_zero, List.filter_eq_nil_iff]
  simp only [Bool.and_eq_true, beq_iff_eq, decide_eq_true_eq, not_and]

lemma exists_leader (job : List Participant) (nid : ℕ)
    (hne : ∃ q ∈ job, q.node = nid) :
    ∃ L ∈ job, L.node = nid ∧ shmrankOf job L = 0 := by
  obtain ⟨q0, hq0, hq0n⟩ := hne
  have hgrp : q0 ∈ job.filter (fun q => q.node == nid) := by
    simp [List.mem_filter, hq0, hq0n]
  obtain ⟨L, hL⟩ :
      ∃ L, L ∈ (job.filter (fun q => q.node == nid)).argmin Participant.grank := by
    cases harg : (job.filter (fun q => q.node == nid)).argmin Participant.grank with
    | none =>
      rw [List.argmin_eq_none] at harg
      rw [harg] at hgrp
      exact absurd hgrp (List.not_mem_nil q0)
    | some L => exact ⟨L, rfl⟩
  have hLgrp := List.argmin_mem hL
  obtain ⟨hLjob, hLnode⟩ := List.mem_filter.mp hLgrp
  have hLnode' : L.node = nid := by simpa using hLnode
  refine ⟨L, hLjob, hLnode', (shmrankOf_eq_zero_iff job L).mpr ?_⟩
  intro q hq hqnode
  have hqgrp : q ∈ job.filter (fun r => r.node == nid) := by
    simp [List.mem_filter, hq, hqnode, hLnode']
  exact Nat.not_lt.mpr (List.le_of_mem_argmin hqgrp hL)

lemma leader_unique (job : List Participant)
    (hnodup : (job.map Participant.grank).Nodup) (p₁ p₂ : Participant)
    (h₁ : p₁ ∈ job) (h₂ : p₂ ∈ job) (hn : p₁.node = p₂.node)
    (hz₁ : shmrankOf job p₁ = 0) (hz₂ : shmrankOf job p₂ = 0) : p₁ = p₂ := by
  have ha := (shmrankOf_eq_zero_iff job p₁).mp hz₁ p₂ h₂ hn.symm
  have hb := (shmrankOf_eq_zero_iff job p₂).mp hz₂ p₁ h₁ hn
  have hg : p₁.grank = p₂.grank := by omega
  exact List.inj_on_of_nodup_map hnodup h₁ h₂ hg

/-- C6: per output step with fusion enabled and subfiling active: in
local-fuse mode, with all global ranks distinct, every shared-memory
node group has exactly one participant that launches a background
fusion process, namely its leader (shared-memory rank 0, the smallest
global rank of the group); in global-fuse mode, under the subfiling
contract that exactly one participant receives the non-empty job-wide
subfile manifest, exactly one participant job-wide launches a fusion
process, regardless of node count. -/
theorem fusion_launch_topology (job : List Participant) (cfg : HDF5Config)
    (m : Participant → Bool) :
    (cfg.h5fuse_info = true → cfg.subfiling = true →
      cfg.h5fuse_local = true →
      (job.map Participant.grank).Nodup →
      ∀ nid, (∃ q ∈ job, q.node = nid) →
        ∃! p, p ∈ job ∧ p.node = nid ∧ launchesFusion job cfg (m p) p)
    ∧ (cfg.h5fuse_info = true → cfg.subfiling = true →
      cfg.h5fuse_local = false →
      (∃! p, p ∈ job ∧ m p = true) →
        ∃! p, p ∈ job ∧ launchesFusion job cfg (m p) p) := by
  constructor
  · intro h1 h2 h3 hnodup nid hne
    obtain ⟨L, hLjob, hLnode, hLz⟩ := exists_leader job nid hne
    refine ⟨L, ⟨hLjob, hLnode,
      (launchesFusion_local_iff job cfg (m L) L h1 h2 h3).mpr hLz⟩, ?_⟩
    rintro p ⟨hpjob, hpnode, hpl⟩
    have hpz := (launchesFusion_local_iff job cfg (m p) p h1 h2 h3).mp hpl
    exact leader_unique job hnodup p L hpjob hLjob (by rw [hpnode, hLnode])
      hpz hLz
  · intro h1 h2 h3 hone
    obtain ⟨u, ⟨hujob, hum⟩, huniq⟩ := hone
    refine ⟨u, ⟨hujob,
      (launchesFusion_global_iff job cfg (m u) u h1 h2 h3).mpr hum⟩, ?_⟩
    rintro p ⟨hpjob, hpl⟩
    exact huniq p ⟨hpjob,
      (launchesFusion_global_iff job cfg (m p) p h1 h2 h3).mp hpl⟩

/-- Every participant reports a non-empty subfile manifest. -/
def allManifests : Participant → Bool := fun _ => true

/-- Only global rank 0 reports a non-empty (job-wide) manifest. -/
def onlyRank0Manifest : Participant → Bool := fun p => p.grank == 0

/-- Witness for C6 on the 8-rank, 2-node job: local-fuse mode launches
exactly one fuser in node group 1 (by its leader, rank 4); global-fuse
mode with the manifest reported at rank 0 launches exactly one fuser
job-wide. -/
theorem fusion_launch_topology_witness :
    (∃! p, p ∈ job8 ∧ p.node = 1
      ∧ launchesFusion job8 cfgLocalFuse (allManifests p) p)
    ∧ (∃! p, p ∈ job8
      ∧ launchesFusion job8 cfgGlobalFuse (onlyRank0Manifest p) p) := by
  constructor
  · exact (fusion_launch_topology job8 cfgLocalFuse allManifests).1 rfl rfl rfl
      (by decide) 1 ⟨⟨4, 1⟩, by decide, rfl⟩
  · refine (fusion_launch_topology job8 cfgGlobalFuse onlyRank0Manifest).2
      rfl rfl rfl ?_
    refine ⟨⟨0, 0⟩, ⟨by decide, by decide⟩, ?_⟩
    rintro p ⟨hp, hm⟩
    fin_cases hp <;> simp_all [onlyRank0Manifest]

/-! ## Timer statistics (`Solver::timer_stats`, lines 337-372)

`timer` is the collector's own elapsed time; `rtimers` is the array the
`MPI_Gather` fills at the collector, one sample per rank (so the
collector's own `timer` appears in it at the collector's position). -/

/-- The stats record (lines 320-326); the `std` field of `timer_stats`
below holds the radicand `std / nprocs` of line 369, whose square root
is taken by `timer_stats_std`. -/
structure timer_statsinfo where
  min : ℚ
  max : ℚ
  mean : ℚ
  std : ℚ
  deriving Repr, DecidableEq

/-- The body of the first reduction loop (lines 357-364): running max,
running min, and the sum accumulated in `mean`. -/
def timer_fold (s : timer_statsinfo) (x : ℚ) : timer_statsinfo :=
  { s with
    max := if x > s.max then x else s.max
    min := if x < s.min then x else s.min
    mean := s.mean + x }

/-- `Solver::timer_stats` at the collector rank (lines 345-371):
initialization `mean = 0, min = timer, max = timer, std = 0`
(lines 348-351), the min/max/sum loop, `mean /= nprocs` (line 365), the
squared-deviation loop (lines 366-368) and the division of line 369. -/
def timer_stats (timer : ℚ) (rtimers : List ℚ) : timer_statsinfo :=
  let init : timer_statsinfo := { mean := 0, min := timer, max := timer, std := 0 }
  let s1 := rtimers.foldl timer_fold init
  let nprocs : ℚ := rtimers.length
  let s2 := { s1 with mean := s1.mean / nprocs }
  let s3 := { s2 with
    std := rtimers.foldl (fun a x => a + (x - s2.mean) * (x - s2.mean)) s2.std }
  { s3 with std := s3.std / nprocs }

/-- The square root of line 369: `stats->std = sqrt( std / nprocs )`. -/
noncomputable def timer_stats_std (timer : ℚ) (rtimers : List ℚ) : ℝ :=
  Real.sqrt ((timer_stats timer rtimers).std : ℝ)

lemma foldl_timer_fold_eq (l : List ℚ) :
    ∀ s : timer_statsinfo, l.foldl timer_fold s =
      { min := l.foldl (fun a x => if x < a then x else a) s.min
        max := l.foldl (fun a x => if x > a then x else a) s.max
        mean := l.foldl (· + ·) s.mean
        std := s.std } := by
  induction l with
  | nil => intro s; rfl
  | cons x l ih =>
    intro s
    rw [List.foldl_cons, ih]
    rfl

lemma foldl_min_le_start (l : List ℚ) :
    ∀ a : ℚ, l.foldl (fun b x => if x < b then x else b) a ≤ a := by
  induction l with
  | nil => intro a; exact le_refl a
  | cons x l ih =>
    intro a
    rw [List.foldl_cons]
    refine le_trans (ih _) ?_
    by_cases h : x < a
    · rw [if_pos h]; exact le_of_lt h
    · rw [if_neg h]

lemma foldl_min_le_mem (l : List ℚ) :
    ∀ (a : ℚ) (x : ℚ), x ∈ l →
      l.foldl (fun b y => if y < b then y else b) a ≤ x := by
  induction l with
  | nil => intro a x hx; exact absurd hx (List.not_mem_nil x)
  | cons y l ih =>
    intro a x hx
    rw [List.foldl_cons]
    rcases List.mem_cons.mp hx with rfl | hx'
    · refine le_trans (foldl_min_le_start l _) ?_
      by_cases h : x < a
      · rw [if_pos h]
      · rw [if_neg h]; exact not_lt.mp h
    · exact ih _ x hx'

lemma foldl_min_mem (l : List ℚ) :
    ∀ a : ℚ, l.foldl (fun b y => if y < b then y else b) a ∈ a :: l := by
  induction l with
  | nil => intro a; exact List.mem_cons_self a []
  | cons y l ih =>
    intro a
    rw [List.foldl_cons]
    by_cases h : y < a
    · rw [if_pos h]
      rcases List.mem_cons.mp (ih y) with hy | hy
      · rw [hy]; exact List.mem_cons_of_mem _ (List.mem_cons_self y l)
      · exact List.mem_cons_of_mem _ (List.mem_cons_of_mem _ hy)
    · rw [if_neg h]
      rcases List.mem_cons.mp (ih a) with ha | ha
      · rw [ha]; exact List.mem_cons_self a (y :: l)
      · exact List.mem_cons_of_mem _ (List.mem_cons_of_mem _ ha)

lemma foldl_max_le_start (l : List ℚ) :
    ∀ a : ℚ, a ≤ l.foldl (fun b x => if x > b then x else b) a := by
  induction l with
  | nil => intro a; exact le_refl a
  | cons x l ih =>
    intro a
    rw [List.foldl_cons]
    refine le_trans ?_ (ih _)
    by_cases h : x > a
    · rw [if_pos h]; exact le_of_lt h
    · rw [if_neg h]

lemma foldl_max_ge_mem (l : List ℚ) :
    ∀ (a : ℚ) (x : ℚ), x ∈ l →
      x ≤ l.foldl (fun b y => if y > b then y else b) a := by
  induction l with
  | nil => intro a x hx; exact absurd hx (List.not_mem_nil x)
  | cons y l ih =>
    intro a x hx
    rw [List.foldl_cons]
    rcases List.mem_cons.mp hx with rfl | hx'
    · refine le_trans ?_ (foldl_max_le_start l _)
      by_cases h : x > a
      · rw [if_pos h]
      · rw [if_neg h]; exact not_lt.mp h
    · exact ih _ x hx'

lemma foldl_max_mem (l : List ℚ) :
    ∀ a : ℚ, l.foldl (fun b y => if y > b then y else b) a ∈ a :: l := by
  induction l with
  | nil => intro a; exact List.mem_cons_self a []
  | cons y l ih =>
    intro a
    rw [List.foldl_cons]
    by_cases h : y > a
    · rw [if_pos h]
      rcases List.mem_cons.mp (ih y) with hy | hy
      · rw [hy]; exact List.mem_cons_of_mem _ (List.mem_cons_self y l)
      · exact List.mem_cons_of_mem _ (List.mem_cons_of_mem _ hy)
    · rw [if_neg h]
      rcases List.mem_cons.mp (ih a) with ha | ha
      · rw [ha]; exact List.mem_cons_self a (y :: l)
      · exact List.mem_cons_of_mem _ (List.mem_cons_of_mem _ ha)

lemma foldl_add_map (f : ℚ → ℚ) (l : List ℚ) :
    ∀ c : ℚ, l.foldl (fun a x => a + f x) c = c + (l.map f).sum := by
  induction l with
  | nil => intro c; simp
  | cons x l ih =>
    intro c
    rw [List.foldl_cons, ih, List.map_cons, List.sum_cons]
    ring

lemma foldl_add_eq (l : List ℚ) (c : ℚ) : l.foldl (· + ·) c = c + l.sum := by
  have h := foldl_add_map id l c
  simpa using h

/-- C8: at the collector rank, `timer_stats` computes the minimum,
maximum and arithmetic mean of all gathered samples, and the population
variance (summed squared deviations divided by the participant count)
whose square root is the reported standard deviation. -/
theorem timer_stats_correct (timer : ℚ) (l : List ℚ) (h : timer ∈ l) :
    ((timer_stats timer l).min ∈ l ∧ ∀ x ∈ l, (timer_stats timer l).min ≤ x)
    ∧ ((timer_stats timer l).max ∈ l ∧ ∀ x ∈ l, x ≤ (timer_stats timer l).max)
    ∧ (timer_stats timer l).mean = l.sum / l.length
    ∧ (timer_stats timer l).std
        = (l.map (fun x => (x - l.sum / l.length)
            * (x - l.sum / l.length))).sum / l.length
    ∧ timer_stats_std timer l
        = Real.sqrt ((((l.map (fun x => (x - l.sum / l.length)
            * (x - l.sum / l.length))).sum / l.length : ℚ) : ℝ)) := by
  have hfold := foldl_timer_fold_eq l
    { mean := 0, min := timer, max := timer, std := 0 }
  have hmin : (timer_stats timer l).min
      = l.foldl (fun b y => if y < b then y else b) timer := by
    simp [timer_stats, hfold]
  have hmax : (timer_stats timer l).max
      = l.foldl (fun b y => if y > b then y else b) timer := by
    simp [timer_stats, hfold]
  have hmean : (timer_stats timer l).mean = l.sum / l.length := by
    simp [timer_stats, hfold, foldl_add_eq]
  have hstd : (timer_stats timer l).std
      = (l.map (fun x => (x - l.sum / l.length)
          * (x - l.sum / l.length))).sum / l.length := by
    simp [timer_stats, hfold, foldl_add_eq, foldl_add_map]
  refine ⟨⟨?_, ?_⟩, ⟨?_, ?_⟩, hmean, hstd, ?_⟩
  · rw [hmin]
    rcases List.mem_cons.mp (foldl_min_mem l timer) with he | he
    · rw [he]; exact h
    · exact he
  · intro x hx
    rw [hmin]
    exact foldl_min_le_mem l timer x hx
  · rw [hmax]
    rcases List.mem_cons.mp (foldl_max_mem l timer) with he | he
    · rw [he]; exact h
    · exact he
  · intro x hx
    rw [hmax]
    exact foldl_max_ge_mem l timer x hx
  · rw [timer_stats_std, hstd]

/-- Witness for C8 at the spec scenario: samples `{1, 2, 3, 4}` yield
`min = 1`, `max = 4`, `mean = 5/2` and `std = sqrt(5/4)`. -/
theorem timer_stats_correct_witness :
    (timer_stats 1 [1, 2, 3, 4]).min = 1
    ∧ (timer_stats 1 [1, 2, 3, 4]).max = 4
    ∧ (timer_stats 1 [1, 2, 3, 4]).mean = 5 / 2
    ∧ timer_stats_std 1 [1, 2, 3, 4] = Real.sqrt (5 / 4) := by
  obtain ⟨⟨hminmem, hminle⟩, ⟨hmaxmem, hmaxle⟩, hmean, hstd, hsqrt⟩ :=
    timer_stats_correct 1 [1, 2, 3, 4] (by norm_num)
  refine ⟨?_, ?_, ?_, ?_⟩
  · have h1 := hminle 1 (by norm_num)
    simp only [List.mem_cons, List.not_mem_nil, or_false] at hminmem
    rcases hminmem with he | he | he | he <;>
      first
        | exact he
        | (rw [he] at h1; linarith)
  · have h4 := hmaxle 4 (by norm_num)
    simp only [List.mem_cons, List.not_mem_nil, or_false] at hmaxmem
    rcases hmaxmem with he | he | he | he <;>
      first
        | exact he
        | (rw [he] at h4; linarith)
  · rw [hmean]; norm_num
  · rw [hsqrt]
    congr 1
    push_cast
    norm_num

/-! ## Backend dispatch (`createSolver`, lines 377-448) -/

/-- The four execution backends `createSolver` can select. -/
inductive Backend where
  | serial
  | openmp
  | cuda
  | hip
  deriving Repr, DecidableEq

/-- The compile-time `KOKKOS_ENABLE_*` availability flags guarding each
branch of `createSolver`. -/
structure BuildConfig where
  kokkos_enable_serial : Bool
  kokkos_enable_openmp : Bool
  kokkos_enable_cuda : Bool
  kokkos_enable_hip : Bool
  deriving Repr, DecidableEq

/-- `createSolver` (lines 389-447): string dispatch on `device` with
three accepted spellings per backend; a recognized but
disabled-at-build-time backend throws (`.error` with the corresponding
message), an unrecognized string throws `"invalid backend"`.
Construction of the solver object itself is abstracted to `.ok` of the
selected backend. -/
def createSolver (cfg : BuildConfig) (device : String) :
    Except String Backend :=
  if device = "serial" ∨ device = "Serial" ∨ device = "SERIAL" then
    if cfg.kokkos_enable_serial then .ok .serial
    else .error "Serial Backend Not Enabled"
  else if device = "openmp" ∨ device = "OpenMP" ∨ device = "OPENMP" then
    if cfg.kokkos_enable_openmp then .ok .openmp
    else .error "OpenMP Backend Not Enabled"
  else if device = "cuda" ∨ device = "Cuda" ∨ device = "CUDA" then
    if cfg.kokkos_enable_cuda then .ok .cuda
    else .error "CUDA Backend Not Enabled"
  else if device = "hip" ∨ device = "Hip" ∨ device = "HIP" then
    if cfg.kokkos_enable_hip then .ok .hip
    else .error "HIP Backend Not Enabled"
  else .error "invalid backend"

/-- The accepted spellings of each backend name (lines 390-391,
403-405, 417-418, 430-431). -/
def spellings : Backend → List String
  | .serial => ["serial", "Serial", "SERIAL"]
  | .openmp => ["openmp", "OpenMP", "OPENMP"]
  | .cuda => ["cuda", "Cuda", "CUDA"]
  | .hip => ["hip", "Hip", "HIP"]

/-- Whether a backend's `KOKKOS_ENABLE_*` flag was set at build time. -/
def enabledAtBuild (cfg : BuildConfig) : Backend → Bool
  | .serial => cfg.kokkos_enable_serial
  | .openmp => cfg.kokkos_enable_openmp
  | .cuda => cfg.kokkos_enable_cuda
  | .hip => cfg.kokkos_enable_hip

lemma spellings_inj (device : String) (b b' : Backend)
    (h : device ∈ spellings b) (h' : device ∈ spellings b') : b = b' := by
  cases b <;> cases b' <;>
    first
      | rfl
      | (exfalso
         simp only [spellings, List.mem_cons, List.not_mem_nil, or_false]
           at h h'
         rcases h with rfl | rfl | rfl <;>
           rcases h' with h' | h' | h' <;> simp at h')

/-- C9: `createSolver` never falls back silently: a successful
construction returns exactly the backend whose spelling was passed,
and only when that backend was enabled at build time; a device string
that matches no recognized spelling fails with `"invalid backend"`;
a recognized spelling whose backend is disabled at build time fails
with a descriptive error. -/
theorem createSolver_no_silent_fallback (cfg : BuildConfig)
    (device : String) :
    (∀ b, createSolver cfg device = .ok b →
      device ∈ spellings b ∧ enabledAtBuild cfg b = true)
    ∧ ((∀ b, device ∉ spellings b) →
      createSolver cfg device = .error "invalid backend")
    ∧ (∀ b, device ∈ spellings b → enabledAtBuild cfg b = false →
      ∃ msg, createSolver cfg device = .error msg) := by
  unfold createSolver
  split_ifs with h1 h2 h3 h4 h5 h6 h7 h8
  · have hmem : device ∈ spellings Backend.serial := by
      rcases h1 with rfl | rfl | rfl <;> simp [spellings]
    refine ⟨?_, ?_, ?_⟩
    · intro b hb
      injection hb with hb'
      subst hb'
      exact ⟨hmem, h2⟩
    · intro hnone
      exact absurd hmem (hnone _)
    · intro b hmem' hdis
      have hbs := spellings_inj device b Backend.serial hmem' hmem
      subst hbs
      simp [enabledAtBuild, h2] at hdis
  · refine ⟨?_, ?_, ?_⟩
    · intro b hb
      simp at hb
    · intro hnone
      have hmem : device ∈ spellings Backend.serial := by
        rcases h1 with rfl | rfl | rfl <;> simp [spellings]
      exact absurd hmem (hnone _)
    · intro b _ _
      exact ⟨_, rfl⟩
  · have hmem : device ∈ spellings Backend.openmp := by
      rcases h3 with rfl | rfl | rfl <;> simp [spellings]
    refine ⟨?_, ?_, ?_⟩
    · intro b hb
      injection hb with hb'
      subst hb'
      exact ⟨hmem, h4⟩
    · intro hnone
      exact absurd hmem (hnone _)
    · intro b hmem' hdis
      have hbs := spellings_inj device b Backend.openmp hmem' hmem
      subst hbs
      simp [enabledAtBuild, h4] at hdis
  · refine ⟨?_, ?_, ?_⟩
    · intro b hb
      simp at hb
    · intro hnone
      have hmem : device ∈ spellings Backend.openmp := by
        rcases h3 with rfl | rfl | rfl <;> simp [spellings]
      exact absurd hmem (hnone _)
    · intro b _ _
      exact ⟨_, rfl⟩
  · have hmem : device ∈ spellings Backend.cuda := by
      rcases h5 with rfl | rfl | rfl <;> simp [spellings]
    refine ⟨?_, ?_, ?_⟩
    · intro b hb
      injection hb with hb'
      subst hb'
      exact ⟨hmem, h6⟩
    · intro hnone
      exact absurd hmem (hnone _)
    · intro b hmem' hdis
      have hbs := spellings_inj device b Backend.cuda hmem' hmem
      subst hbs
      simp [enabledAtBuild, h6] at hdis
  · refine ⟨?_, ?_, ?_⟩
    · intro b hb
      simp at hb
    · intro hnone
      have hmem : device ∈ spellings Backend.cuda := by
        rcases h5 with rfl | rfl | rfl <;> simp [spellings]
      exact absurd hmem (hnone _)
    · intro b _ _
      exact ⟨_, rfl⟩
  · have hmem : device ∈ spellings Backend.hip := by
      rcases h7 with rfl | rfl | rfl <;> simp [spellings]
    refine ⟨?_, ?_, ?_⟩
    · intro b hb
      injection hb with hb'
      subst hb'
      exact ⟨hmem, h8⟩
    · intro hnone
      exact absurd hmem (hnone _)
    · intro b hmem' hdis
      have hbs := spellings_inj device b Backend.hip hmem' hmem
      subst hbs
      simp [enabledAtBuild, h8] at hdis
  · refine ⟨?_, ?_, ?_⟩
    · intro b hb
      simp at hb
    · intro hnone
      have hmem : device ∈ spellings Backend.hip := by
        rcases h7 with rfl | rfl | rfl <;> simp [spellings]
      exact absurd hmem (hnone _)
    · intro b _ _
      exact ⟨_, rfl⟩
  · refine ⟨?_, ?_, ?_⟩
    · intro b hb
      simp at hb
    · intro _
      rfl
    · intro b _ _
      exact ⟨_, rfl⟩

/-- Witness for C9: the unrecognized device string `"metal"` fails with
`"invalid backend"`, and `"SERIAL"` with the serial backend disabled at
build time fails with a descriptive error rather than falling back. -/
theorem createSolver_no_silent_fallback_witness :
    createSolver ⟨true, true, true, true⟩ "metal" = .error "invalid backend"
    ∧ ∃ msg, createSolver ⟨false, true, true, true⟩ "SERIAL"
        = .error msg := by
  constructor
  · exact (createSolver_no_silent_fallback ⟨true, true, true, true⟩
      "metal").2.1 (by intro b; cases b <;> decide)
  · exact (createSolver_no_silent_fallback ⟨false, true, true, true⟩
      "SERIAL").2.2 .serial (by decide) rfl

end ExaMPM
